import Mathlib

/-!
Verification development for the office365-log-collector repository.

The definitions below are shallow embeddings of the program's source files:

* `src/config.rs` — duration-string parsing (`parse_interval`), the
  time-window builder (`get_needed_runs_from`);
* `src/main.rs` — `get_start_time_from_state`;
* `src/known_blobs_cache.rs` — the bounded LRU known-blobs cache and its
  save/load file round trip;
* `src/collector.rs` — `handle_log` record filtering and the
  `message_loop` retry / rate-limit / accounting state machine.

Machine integers (`usize`, `u64`) are modelled as `Nat`; points in time are
modelled as integer numbers of seconds (`Int` where differences matter,
`Nat` for monotone clocks).  Fallible operations return `Option` / `Except`.
-/

namespace O365

/-! ## Rust string-primitive models

Rust `&str` values are modelled as their lists of characters (`String` in
the statements is converted through `String.data`); `str::trim`,
`str::ends_with(char)`, byte-slicing off a trailing one-byte char, and
`str::parse::<u64>` are modelled as the corresponding char-list functions
below.  Whitespace is the ASCII subset of Rust's `char::is_whitespace`
(all inputs of interest are ASCII). -/

def wsCh (c : Char) : Bool :=
  (9 ≤ c.toNat ∧ c.toNat ≤ 13) ∨ c.toNat = 32

def isDigitCh (c : Char) : Bool :=
  48 ≤ c.toNat ∧ c.toNat ≤ 57

def digitVal (c : Char) : Nat := c.toNat - 48

def charsToNat (cs : List Char) : Nat :=
  cs.foldl (fun a c => 10 * a + digitVal c) 0

/-- Model of Rust `str::trim`: drop whitespace from both ends. -/
def trimChars (cs : List Char) : List Char :=
  ((cs.dropWhile wsCh).reverse.dropWhile wsCh).reverse

/-- Model of Rust `str::ends_with(c)` for a one-char pattern. -/
def endsWithCh (cs : List Char) (c : Char) : Bool :=
  match cs.getLast? with
  | some x => x = c
  | none => false

/-- Model of Rust `s.parse::<u64>()`: optional leading `+`, at least one
digit, all digits, and the value must fit in 64 bits. -/
def parseU64 (cs : List Char) : Option Nat :=
  let ds := match cs with
    | '+' :: rest => rest
    | ds => ds
  if ds ≠ [] ∧ ds.all isDigitCh then
    let n := charsToNat ds
    if n < 2 ^ 64 then some n else none
  else none

/-! ## `config.rs` : `parse_interval` (lines 62–75) -/

/-- Model of `Config::parse_interval`.  Mirrors the source: trim, then test
the suffixes `s`, `m`, `h`, `d` in that order (`s[..s.len()-1]` drops the
one-byte suffix, modelled by `dropLast`); a failed numeric parse falls back
to `unwrap_or` defaults (300, 5, 1, 1 respectively, times the unit); an
unsuffixed string parses as seconds with default 300. -/
def parse_interval (s : String) : Nat :=
  let t := trimChars s.data
  if endsWithCh t 's' then
    (parseU64 t.dropLast).getD 300
  else if endsWithCh t 'm' then
    (parseU64 t.dropLast).getD 5 * 60
  else if endsWithCh t 'h' then
    (parseU64 t.dropLast).getD 1 * 3600
  else if endsWithCh t 'd' then
    (parseU64 t.dropLast).getD 1 * 86400
  else
    (parseU64 t).getD 300

/-- The numeric part `parse_interval` tries to parse, per the branch taken. -/
def intervalNumericPart (s : String) : List Char :=
  let t := trimChars s.data
  if endsWithCh t 's' ∨ endsWithCh t 'm' ∨ endsWithCh t 'h' ∨ endsWithCh t 'd' then
    t.dropLast
  else t

/-- The per-suffix default `parse_interval` returns when the numeric part
fails to parse (the `unwrap_or` value times the unit of the suffix). -/
def intervalDefault (s : String) : Nat :=
  let t := trimChars s.data
  if endsWithCh t 's' then 300
  else if endsWithCh t 'm' then 300
  else if endsWithCh t 'h' then 3600
  else if endsWithCh t 'd' then 86400
  else 300

/-! ## `config.rs` : time-window builder (`get_needed_runs_from`, lines 118–158)

Times are integer seconds; `chrono::Duration::try_hours 24` is 86400
seconds.  The inner `while` loop of the source peels off 24-hour windows
while more than 24 hours remain, then emits the final window. -/

def splitWindows (endT : Int) (start : Int) : List (Int × Int) :=
  if 86400 < endT - start then
    (start, start + 86400) :: splitWindows endT (start + 86400)
  else
    [(start, endT)]
termination_by (endT - start).toNat
decreasing_by
  simp_wf
  omega

/-- Model of the `start_time_base` computation of `get_needed_runs_from`
(config.rs lines 122–138): a provided `start_from` is used as-is (the
`hours_to_collect` bound is not checked on that path); otherwise the start
is `now - hours_to_collect * 3600` and more than 168 hours is a panic,
modelled as `Except.error`. -/
def startTimeBase (hoursToCollect : Int) (startFrom : Option Int) (now : Int) :
    Except String Int :=
  match startFrom with
  | some f => .ok f
  | none =>
    if 168 < hoursToCollect then
      .error "Hours to collect cannot be more than 168 due to Office API limits"
    else
      .ok (now - hoursToCollect * 3600)

/-- Model of `Config::get_needed_runs_from`: one window list per
subscription, all built from the same `start_time_base` by the 24-hour
splitting loop.  The `HashMap` of the source is modelled as an association
list. -/
def get_needed_runs_from (subscriptions : List String) (hoursToCollect : Int)
    (startFrom : Option Int) (now : Int) :
    Except String (List (String × List (Int × Int))) :=
  match startTimeBase hoursToCollect startFrom now with
  | .error e => .error e
  | .ok s => .ok (subscriptions.map (fun ct => (ct, splitWindows now s)))

/-! ## `main.rs` : `get_start_time_from_state` (lines 115–158)

The bookmark store is abstracted as a function from subscription name to
the stored `last_log_time` (if a state file exists); only the value the
function returns matters here (the first-run branch also writes initial
state files, a side effect that does not influence the returned time). -/

def get_start_time_from_state (onlyFutureEvents : Bool)
    (subscriptions : List String) (loadState : String → Option Int)
    (now : Int) : Option Int :=
  if onlyFutureEvents = false then none
  else
    match subscriptions with
    | [] => none
    | firstSub :: _ =>
      match loadState firstSub with
      | some lastLogTime => some lastLogTime
      | none => some (now - 1)

/-! ## `lru::LruCache` model

The `lru` crate keeps entries in most-recently-used-first order; `put`
promotes (and, for a new key, evicts the least-recently-used entry once the
capacity is exceeded), `get` / `get_mut` promote the entry they touch, and
`pop` removes an entry.  The cache is modelled as the MRU-first list of its
entries together with its capacity. -/

structure LruCache (K V : Type) where
  entries : List (K × V)
  cap : Nat
deriving Repr, DecidableEq

def eraseKey [DecidableEq K] (l : List (K × V)) (k : K) : List (K × V) :=
  l.filter (fun p => ¬ p.1 = k)

def LruCache.lookup [DecidableEq K] (m : LruCache K V) (k : K) : Option V :=
  (m.entries.find? (fun p => p.1 = k)).map Prod.snd

def LruCache.containsKey [DecidableEq K] (m : LruCache K V) (k : K) : Bool :=
  m.entries.any (fun p => p.1 = k)

/-- `lru::LruCache::put`: promote the key to MRU with the new value; if the
capacity is now exceeded (only possible for a fresh key at capacity), drop
the least-recently-used entry. -/
def LruCache.put [DecidableEq K] (m : LruCache K V) (k : K) (v : V) :
    LruCache K V :=
  let l := (k, v) :: eraseKey m.entries k
  { m with entries := if m.cap < l.length then l.take m.cap else l }

/-- Effect of `get_mut` (which promotes the entry) followed by overwriting
the entry's value — the in-place mutation of the message loop's retry map. -/
def LruCache.touchUpdate [DecidableEq K] (m : LruCache K V) (k : K) (v : V) :
    LruCache K V :=
  { m with entries := (k, v) :: eraseKey m.entries k }

def LruCache.pop [DecidableEq K] (m : LruCache K V) (k : K) : LruCache K V :=
  { m with entries := eraseKey m.entries k }

def LruCache.sumVal (m : LruCache K Nat) : Nat :=
  (m.entries.map Prod.snd).sum

def LruCache.len (m : LruCache K V) : Nat := m.entries.length

/-! ## `collector.rs` : the message loop (lines 519–675)

`RunState` and `RunStats` are declared in `data_structures.rs`, which is
not part of the provided sources; their fields are reconstructed from their
uses in `collector.rs` and from the spec's data model (`RunStats` is the
four counters, `RunState` the two awaiting counters plus stats and the
rate-limited flag).  `usize` counters are modelled as `Nat` with truncated
subtraction; the `gh_ok` ghost flag below records whether any plain
(non-saturating) `-= 1` was ever executed on a zero counter, i.e. whether
the `Nat` model and the wrapping `usize` agree along the run. -/

structure RunStats where
  blobs_found : Nat
  blobs_successful : Nat
  blobs_error : Nat
  blobs_retried : Nat
deriving Repr, DecidableEq

structure RunState where
  awaiting_content_types : Nat
  awaiting_content_blobs : Nat
  stats : RunStats
  rate_limited : Bool
deriving Repr, DecidableEq

inductive StatusMessage where
  | foundNewContentBlob
  | finishedContentBlobs
  | retrievedContentBlob
  | errorContentBlob
  | beingThrottled
deriving Repr, DecidableEq

structure ContentToRetrieve where
  content_type : String
  content_id : String
  expiration : String
  url : String
deriving Repr, DecidableEq

/-- One message receipt of the message loop.  The loop polls four
non-blocking channels; each poll that yields a value is modelled as one
event, time-stamped with the (virtual, seconds) instant of that loop
iteration. -/
inductive LoopEvent where
  | status (m : StatusMessage)
  | blobError (content_type url : String)
  | contentError (c : ContentToRetrieve)
  | kill (b : Bool)
deriving Repr, DecidableEq

structure TimedEvent where
  time : Nat
  ev : LoopEvent
deriving Repr, DecidableEq

/-- The message loop's local state.  Fields up to `exited` mirror the
source (`state`, `rate_limit_backoff_started`, `retry_map`, the re-sends
on `blobs_tx` / `content_tx`, the `content_tx.close_channel()` call and
loop exit).  The `gh_` fields are ghost instrumentation for the theorems
only: they observe which branches were taken and never influence the
non-ghost fields. -/
structure LoopState where
  run : RunState
  backoff : Option Nat
  retry_map : LruCache String Nat
  blobs_resent : List (String × String)
  content_resent : List ContentToRetrieve
  content_closed : Bool
  exited : Bool
  gh_ok : Bool
  gh_inserts : Nat
  gh_pageGiveups : Nat
deriving Repr, DecidableEq

def check_done (s : RunState) : Bool :=
  s.awaiting_content_types = 0 ∧ s.awaiting_content_blobs = 0

/-- Top-of-iteration backoff check (collector.rs lines 540–546): once 30
seconds have elapsed since the recorded instant, clear the backoff and the
`rate_limited` flag. -/
def stepBackoffCheck (now : Nat) (s : LoopState) : LoopState :=
  match s.backoff with
  | some t => if 30 ≤ now - t then
      { s with backoff := none, run := { s.run with rate_limited := false } }
    else s
  | none => s

/-- Processing of one received message (collector.rs lines 549–657).
`retries` is the configured retry count; `now` the current instant (used
only by `BeingThrottled`).  Exits of the `loop` set `exited`. -/
def stepEvent (retries : Nat) (now : Nat) (ev : LoopEvent) (s : LoopState) :
    LoopState :=
  match ev with
  | .kill b => if b then { s with exited := true } else s
  | .status m =>
    match m with
    | .foundNewContentBlob =>
      { s with run := { s.run with
          awaiting_content_blobs := s.run.awaiting_content_blobs + 1,
          stats := { s.run.stats with
            blobs_found := s.run.stats.blobs_found + 1 } } }
    | .finishedContentBlobs =>
      let run := { s.run with
        awaiting_content_types := s.run.awaiting_content_types - 1 }
      let s := { s with run := run }
      if check_done run then { s with exited := true } else s
    | .retrievedContentBlob =>
      let ok := s.gh_ok && decide (0 < s.run.awaiting_content_blobs)
      let run := { s.run with
        awaiting_content_blobs := s.run.awaiting_content_blobs - 1,
        stats := { s.run.stats with
          blobs_successful := s.run.stats.blobs_successful + 1 } }
      let s := { s with run := run, gh_ok := ok }
      if check_done run then { s with content_closed := true, exited := true }
      else s
    | .errorContentBlob =>
      let ok := s.gh_ok && decide (0 < s.run.awaiting_content_blobs)
      let run := { s.run with
        awaiting_content_blobs := s.run.awaiting_content_blobs - 1,
        stats := { s.run.stats with
          blobs_error := s.run.stats.blobs_error + 1 } }
      let s := { s with run := run, gh_ok := ok }
      if check_done run then { s with content_closed := true, exited := true }
      else s
    | .beingThrottled =>
      match s.backoff with
      | none =>
        { s with backoff := some now,
                 run := { s.run with rate_limited := true } }
      | some _ => s
  | .blobError ct url =>
    match s.retry_map.lookup url with
    | some retriesLeft =>
      if retriesLeft = 0 then
        { s with
          retry_map := s.retry_map.pop url,
          run := { s.run with
            awaiting_content_types := s.run.awaiting_content_types - 1,
            stats := { s.run.stats with
              blobs_error := s.run.stats.blobs_error + 1 } },
          gh_ok := s.gh_ok && decide (0 < s.run.awaiting_content_types),
          gh_pageGiveups := s.gh_pageGiveups + 1 }
      else
        let newLeft := if s.backoff = none then retriesLeft - 1 else retriesLeft
        { s with
          retry_map := s.retry_map.touchUpdate url newLeft,
          run := { s.run with stats := { s.run.stats with
            blobs_retried := s.run.stats.blobs_retried + 1 } },
          blobs_resent := s.blobs_resent ++ [(ct, url)] }
    | none =>
      { s with
        retry_map := s.retry_map.put url (retries - 1),
        run := { s.run with stats := { s.run.stats with
          blobs_retried := s.run.stats.blobs_retried + 1 } },
        blobs_resent := s.blobs_resent ++ [(ct, url)],
        gh_inserts := s.gh_inserts + 1 }
  | .contentError c =>
    let s := { s with run := { s.run with stats := { s.run.stats with
      blobs_retried := s.run.stats.blobs_retried + 1 } } }
    match s.retry_map.lookup c.url with
    | some retriesLeft =>
      if retriesLeft = 0 then
        { s with
          retry_map := s.retry_map.pop c.url,
          run := { s.run with
            awaiting_content_blobs := s.run.awaiting_content_blobs - 1,
            stats := { s.run.stats with
              blobs_error := s.run.stats.blobs_error + 1 } },
          gh_ok := s.gh_ok && decide (0 < s.run.awaiting_content_blobs) }
      else
        let newLeft := if s.backoff = none then retriesLeft - 1 else retriesLeft
        { s with
          retry_map := s.retry_map.touchUpdate c.url newLeft,
          content_resent := s.content_resent ++ [c] }
    | none =>
      { s with
        retry_map := s.retry_map.put c.url (retries - 1),
        run := { s.run with stats := { s.run.stats with
          blobs_retried := s.run.stats.blobs_retried + 1 } },
        content_resent := s.content_resent ++ [c],
        gh_inserts := s.gh_inserts + 1 }

def stepTimed (retries : Nat) (e : TimedEvent) (s : LoopState) : LoopState :=
  stepEvent retries e.time e.ev (stepBackoffCheck e.time s)

/-- Run the message loop over a list of time-stamped message receipts;
once an exit branch sets `exited` no further messages are processed
(after the loop the final stats are published unchanged). -/
def runLoop (retries : Nat) (s : LoopState) : List TimedEvent → LoopState
  | [] => s
  | e :: rest => if s.exited then s else runLoop retries (stepTimed retries e s) rest

/-- Initial state of the message loop after seeding (collector.rs lines
523–535): `awaiting_content_types` was incremented once per seeded
(content-type, url) pair; the retry map is empty with capacity
`MAX_RETRY_ENTRIES = 50_000`. -/
def initLoop (urls : List (String × String)) : LoopState where
  run := {
    awaiting_content_types := urls.length
    awaiting_content_blobs := 0
    stats := { blobs_found := 0, blobs_successful := 0,
               blobs_error := 0, blobs_retried := 0 }
    rate_limited := false }
  backoff := none
  retry_map := { entries := [], cap := 50000 }
  blobs_resent := []
  content_resent := []
  content_closed := false
  exited := false
  gh_ok := true
  gh_inserts := 0
  gh_pageGiveups := 0

/-! ## Basic retry-map lemmas -/

lemma sum_map_filter_le (l : List (K × Nat)) (q : K × Nat → Bool) :
    ((l.filter q).map Prod.snd).sum ≤ (l.map Prod.snd).sum := by
  induction l with
  | nil => simp
  | cons a t ih =>
    rw [List.filter_cons]
    by_cases h : q a = true
    · simp only [h, if_pos, List.map_cons, List.sum_cons]
      omega
    · simp only [h, Bool.false_eq_true, if_false, List.map_cons, List.sum_cons]
      omega

lemma find_sum_le [DecidableEq K] (l : List (K × Nat)) (k : K) (v : Nat)
    (h : (l.find? (fun p => p.1 = k)).map Prod.snd = some v) :
    v + ((eraseKey l k).map Prod.snd).sum ≤ (l.map Prod.snd).sum := by
  induction l with
  | nil => simp at h
  | cons a t ih =>
    by_cases ha : a.1 = k
    · rw [List.find?_cons_of_pos _ (by simp [ha])] at h
      simp only [Option.map_some', Option.some.injEq] at h
      subst h
      have hs := sum_map_filter_le t (fun p => decide ¬p.1 = k)
      simp only [eraseKey, List.filter_cons, ha]
      simp only [not_true_eq_false, decide_False, Bool.false_eq_true, if_false,
        List.map_cons, List.sum_cons]
      omega
    · rw [List.find?_cons_of_neg _ (by simp [ha])] at h
      have := ih h
      simp only [eraseKey, List.filter_cons, ha] at this ⊢
      simp only [not_false_eq_true, decide_True, if_pos, List.map_cons,
        List.sum_cons]
      omega

lemma find_len_le [DecidableEq K] {V : Type} (l : List (K × V)) (k : K) (v : V)
    (h : (l.find? (fun p => p.1 = k)).map Prod.snd = some v) :
    (eraseKey l k).length + 1 ≤ l.length := by
  induction l with
  | nil => simp at h
  | cons a t ih =>
    by_cases ha : a.1 = k
    · have hs : (t.filter (fun p => decide ¬p.1 = k)).length ≤ t.length :=
        List.length_filter_le _ t
      simp only [eraseKey, List.filter_cons, ha]
      simp only [not_true_eq_false, decide_False, Bool.false_eq_true, if_false,
        List.length_cons]
      omega
    · rw [List.find?_cons_of_neg _ (by simp [ha])] at h
      have := ih h
      simp only [eraseKey, List.filter_cons, ha] at this ⊢
      simp only [not_false_eq_true, decide_True, if_pos, List.length_cons]
      omega

lemma eraseKey_len_le [DecidableEq K] {V : Type} (l : List (K × V)) (k : K) :
    (eraseKey l k).length ≤ l.length :=
  List.length_filter_le _ l

lemma containsKey_pop_self [DecidableEq K] {V : Type} (m : LruCache K V) (k : K) :
    (m.pop k).containsKey k = false := by
  simp only [LruCache.pop, LruCache.containsKey, eraseKey]
  rw [List.any_eq_false]
  intro p hp
  simp only [List.mem_filter, decide_not] at hp
  simpa using hp.2

lemma lookup_touchUpdate_self [DecidableEq K] {V : Type} (m : LruCache K V)
    (k : K) (v : V) : (m.touchUpdate k v).lookup k = some v := by
  simp [LruCache.touchUpdate, LruCache.lookup, List.find?_cons_of_pos]

lemma sum_take_le (n : Nat) (l : List Nat) : (l.take n).sum ≤ l.sum := by
  induction l generalizing n with
  | nil => simp
  | cons a t ih =>
    cases n with
    | zero => simp
    | succ m =>
      simp only [List.take_succ_cons, List.sum_cons]
      have := ih m
      omega

lemma sumVal_put_le [DecidableEq K] (m : LruCache K Nat) (k : K) (v : Nat) :
    (m.put k v).sumVal ≤ v + m.sumVal := by
  have h1 : ((eraseKey m.entries k).map Prod.snd).sum ≤ (m.entries.map Prod.snd).sum :=
    sum_map_filter_le m.entries _
  simp only [LruCache.put, LruCache.sumVal]
  split
  · rw [List.map_take, List.map_cons]
    dsimp only
    have h2 := sum_take_le m.cap (v :: (eraseKey m.entries k).map Prod.snd)
    simp only [List.sum_cons] at h2
    omega
  · simp only [List.map_cons, List.sum_cons]
    omega

lemma len_put_le [DecidableEq K] {V : Type} (m : LruCache K V) (k : K) (v : V) :
    (m.put k v).len ≤ m.len + 1 := by
  have h1 : (eraseKey m.entries k).length ≤ m.entries.length :=
    List.length_filter_le _ m.entries
  simp only [LruCache.put, LruCache.len]
  split
  · have := List.length_take_le m.cap ((k, v) :: eraseKey m.entries k)
    have h2 : ((k, v) :: eraseKey m.entries k).length = (eraseKey m.entries k).length + 1 := by
      simp
    omega
  · simp only [List.length_cons]
    omega

/-! ## Invariants of the message loop (for claims C2 and C3)

`C3Inv` is the inductive invariant behind the corrected run-statistics
claim: as long as no `BeingThrottled` message arrives, (i) the backoff
stays off, (ii) when no `usize` decrement ever underflowed, the number of
found blobs plus the page-URL give-ups equals the outstanding blobs plus
the successes plus the errors, and (iii) the retried counter plus the sum
of the remaining retry budgets plus the number of retry-map entries is
bounded by `(retries + 2)` per retry-map insertion. -/

def C3Inv (retries : Nat) (s : LoopState) : Prop :=
  s.backoff = none ∧
  (s.gh_ok = true →
    s.run.stats.blobs_found + s.gh_pageGiveups
      = s.run.awaiting_content_blobs + s.run.stats.blobs_successful
        + s.run.stats.blobs_error) ∧
  s.run.stats.blobs_retried + s.retry_map.sumVal + s.retry_map.len
    ≤ (retries + 2) * s.gh_inserts

lemma stepBackoffCheck_none (now : Nat) (s : LoopState) (h : s.backoff = none) :
    stepBackoffCheck now s = s := by
  simp [stepBackoffCheck, h]

lemma c3inv_step (retries now : Nat) (ev : LoopEvent) (s : LoopState)
    (hr : 1 ≤ retries) (hnt : ev ≠ .status .beingThrottled)
    (h : C3Inv retries s) :
    C3Inv retries (stepEvent retries now ev s) := by
  obtain ⟨hb, heq, hle⟩ := h
  cases ev with
  | kill b =>
    cases b <;> simp only [stepEvent, C3Inv, if_pos, if_neg, Bool.false_eq_true,
      if_false, if_true] <;> exact ⟨hb, heq, hle⟩
  | status m =>
    cases m with
    | foundNewContentBlob =>
      refine ⟨hb, ?_, hle⟩
      intro hok
      dsimp only [stepEvent] at hok ⊢
      have := heq hok
      omega
    | finishedContentBlobs =>
      simp only [stepEvent]
      split <;>
      · refine ⟨hb, ?_, hle⟩
        intro hok
        dsimp only at hok ⊢
        have := heq hok
        omega
    | retrievedContentBlob =>
      simp only [stepEvent]
      split <;>
      · refine ⟨hb, ?_, hle⟩
        intro hok
        dsimp only at hok ⊢
        simp only [Bool.and_eq_true, decide_eq_true_eq] at hok
        have := heq hok.1
        omega
    | errorContentBlob =>
      simp only [stepEvent]
      split <;>
      · refine ⟨hb, ?_, hle⟩
        intro hok
        dsimp only at hok ⊢
        simp only [Bool.and_eq_true, decide_eq_true_eq] at hok
        have := heq hok.1
        omega
    | beingThrottled => exact absurd rfl hnt
  | blobError ct url =>
    simp only [stepEvent]
    rcases hl : s.retry_map.lookup url with - | rl <;> dsimp only
    · -- first error for this URL: insert into the retry map
      refine ⟨hb, fun hok => heq hok, ?_⟩
      dsimp only
      have h1 := sumVal_put_le s.retry_map url (retries - 1)
      have h2 := len_put_le s.retry_map url (retries - 1)
      have hmul : (retries + 2) * (s.gh_inserts + 1)
          = (retries + 2) * s.gh_inserts + (retries + 2) := by ring
      omega
    · rcases Nat.eq_zero_or_pos rl with hrl | hrl
      · subst hrl
        rw [if_pos rfl]
        refine ⟨hb, ?_, ?_⟩
        · intro hok
          dsimp only at hok ⊢
          simp only [Bool.and_eq_true, decide_eq_true_eq] at hok
          have := heq hok.1
          omega
        · dsimp only
          have h1 : ((eraseKey s.retry_map.entries url).map Prod.snd).sum
              ≤ (s.retry_map.entries.map Prod.snd).sum :=
            sum_map_filter_le s.retry_map.entries _
          have h2 := find_len_le s.retry_map.entries url 0 hl
          simp only [LruCache.pop, LruCache.sumVal, LruCache.len] at *
          omega
      · rw [if_neg (by omega)]
        refine ⟨hb, fun hok => heq hok, ?_⟩
        dsimp only
        rw [if_pos hb]
        have h1 := find_sum_le s.retry_map.entries url rl hl
        have h2 := find_len_le s.retry_map.entries url rl hl
        simp only [LruCache.touchUpdate, LruCache.sumVal, LruCache.len,
          List.map_cons, List.sum_cons, List.length_cons] at *
        omega
  | contentError c =>
    simp only [stepEvent]
    rcases hl : s.retry_map.lookup c.url with - | rl <;> dsimp only
    · refine ⟨hb, fun hok => heq hok, ?_⟩
      dsimp only
      have h1 := sumVal_put_le s.retry_map c.url (retries - 1)
      have h2 := len_put_le s.retry_map c.url (retries - 1)
      have hmul : (retries + 2) * (s.gh_inserts + 1)
          = (retries + 2) * s.gh_inserts + (retries + 2) := by ring
      omega
    · rcases Nat.eq_zero_or_pos rl with hrl | hrl
      · subst hrl
        rw [if_pos rfl]
        refine ⟨hb, ?_, ?_⟩
        · intro hok
          dsimp only at hok ⊢
          simp only [Bool.and_eq_true, decide_eq_true_eq] at hok
          have := heq hok.1
          omega
        · dsimp only
          have h1 : ((eraseKey s.retry_map.entries c.url).map Prod.snd).sum
              ≤ (s.retry_map.entries.map Prod.snd).sum :=
            sum_map_filter_le s.retry_map.entries _
          have h2 := find_len_le s.retry_map.entries c.url 0 hl
          simp only [LruCache.pop, LruCache.sumVal, LruCache.len] at *
          omega
      · rw [if_neg (by omega)]
        refine ⟨hb, fun hok => heq hok, ?_⟩
        dsimp only
        rw [if_pos hb]
        have h1 := find_sum_le s.retry_map.entries c.url rl hl
        have h2 := find_len_le s.retry_map.entries c.url rl hl
        simp only [LruCache.touchUpdate, LruCache.sumVal, LruCache.len,
          List.map_cons, List.sum_cons, List.length_cons] at *
        omega

lemma c3inv_runLoop (retries : Nat) (tr : List TimedEvent) (s : LoopState)
    (hr : 1 ≤ retries) (hnt : ∀ e ∈ tr, e.ev ≠ .status .beingThrottled)
    (h : C3Inv retries s) :
    C3Inv retries (runLoop retries s tr) := by
  induction tr generalizing s with
  | nil => exact h
  | cons e rest ih =>
    rw [runLoop]
    by_cases hex : s.exited = true
    · rw [if_pos hex]
      exact h
    · rw [if_neg hex]
      refine ih _ (fun x hx => hnt x (List.mem_cons_of_mem _ hx)) ?_
      rw [stepTimed, stepBackoffCheck_none _ _ h.1]
      exact c3inv_step retries e.time e.ev s hr (hnt e (List.mem_cons_self _ _)) h

/-! ## Concrete message-loop runs used by claims C1, C2, C3, C5 -/

/-- The single content blob of the S4 scenario (one blob URL whose every
fetch fails with a transient error). -/
def c1Blob : ContentToRetrieve where
  content_type := "Audit.Exchange"
  content_id := "id1"
  expiration := "2030-01-01T00:00:00.000Z"
  url := "bloburl1"

/-- S4 event sequence: the discoverer finds one blob and finishes its page;
every fetch of the blob fails transiently, so a `content_error` arrives for
the initial attempt and for each of the three re-sends; with the loop then
idle (both awaiting counters zero but no further status message), the run
is ended by the collector's kill signal. -/
def c1Trace : List TimedEvent :=
  [ { time := 0, ev := .status .foundNewContentBlob },
    { time := 0, ev := .status .finishedContentBlobs },
    { time := 1, ev := .contentError c1Blob },
    { time := 2, ev := .contentError c1Blob },
    { time := 3, ev := .contentError c1Blob },
    { time := 4, ev := .contentError c1Blob },
    { time := 5, ev := .kill true } ]

/-- C1: retry exhaustion (scenario S4).  Running the message loop embedding
on one content-blob URL that fails transiently on every fetch with
`retries = 3` and no rate limiting yields final stats with
`blobs_successful = 0`, `blobs_error = 1` and an empty retry map as the
claim states, but `blobs_retried = 5`, not the claimed `3`: the
`content_error` branch of `message_loop` increments `blobs_retried` once
before consulting the retry map (so the first error counts twice and the
final give-up also counts), unlike its `blob_error` sibling, which counts
exactly one retry per re-send. -/
theorem c1_retry_exhaustion_eval :
    (runLoop 3 (initLoop [("Audit.Exchange", "pageurl1")]) c1Trace).run.stats
      = { blobs_found := 1, blobs_successful := 0,
          blobs_error := 1, blobs_retried := 5 }
    ∧ (runLoop 3 (initLoop [("Audit.Exchange", "pageurl1")]) c1Trace).retry_map.entries = []
    ∧ (runLoop 3 (initLoop [("Audit.Exchange", "pageurl1")]) c1Trace).exited = true
    ∧ (runLoop 3 (initLoop [("Audit.Exchange", "pageurl1")]) c1Trace).run.stats.blobs_retried ≠ 3 := by
  refine ⟨?_, ?_, ?_, ?_⟩ <;> decide

def c2Blob : ContentToRetrieve where
  content_type := "Audit.Exchange"
  content_id := "id2"
  expiration := "2030-01-01T00:00:00.000Z"
  url := "bloburl2"

/-- A run in which the single found blob fails once and then succeeds:
the error inserts `bloburl2` into the retry map (and re-enqueues it),
the subsequent `RetrievedContentBlob` completes the run — but nothing
ever removes the map entry. -/
def c2Trace : List TimedEvent :=
  [ { time := 0, ev := .status .foundNewContentBlob },
    { time := 0, ev := .status .finishedContentBlobs },
    { time := 1, ev := .contentError c2Blob },
    { time := 2, ev := .status .retrievedContentBlob } ]

/-- C2 (counterexample): a URL that was enqueued to the fetcher input
channel (it appears among the loop's re-sends on `content_tx`), whose blob
ultimately succeeded, still has a retry-map entry (`retries_left = 2`)
when the message loop exits through its completion check.  Success paths
(`RetrievedContentBlob`) never touch the retry map. -/
theorem c2_retry_map_counterexample :
    (runLoop 3 (initLoop [("Audit.Exchange", "pageurl1")]) c2Trace).exited = true
    ∧ (runLoop 3 (initLoop [("Audit.Exchange", "pageurl1")]) c2Trace).content_resent.map
        ContentToRetrieve.url = ["bloburl2"]
    ∧ (runLoop 3 (initLoop [("Audit.Exchange", "pageurl1")]) c2Trace).retry_map.lookup
        "bloburl2" = some 2 := by
  refine ⟨?_, ?_, ?_⟩ <;> decide

/-- C2 (amended): the retry map is emptied of a URL exactly when that URL
is given up: if an error arrives (on either error channel) for a URL whose
map entry has `retries_left = 0`, the entry is removed on the spot; an
entry for a URL that afterwards succeeds is never removed, as the
counterexample shows. -/
theorem c2_removed_on_giveup (retries now : Nat) (s : LoopState)
    (c : ContentToRetrieve) (ct u : String)
    (hc : s.retry_map.lookup c.url = some 0)
    (hu : s.retry_map.lookup u = some 0) :
    (stepEvent retries now (.contentError c) s).retry_map.containsKey c.url = false
    ∧ (stepEvent retries now (.blobError ct u) s).retry_map.containsKey u = false := by
  constructor
  · simp only [stepEvent]
    rw [hc]
    dsimp only
    rw [if_pos rfl]
    exact containsKey_pop_self _ _
  · simp only [stepEvent]
    rw [hu]
    dsimp only
    rw [if_pos rfl]
    exact containsKey_pop_self _ _

theorem c2_removed_on_giveup_witness :
    (stepEvent 3 0 (.contentError c2Blob)
        { initLoop [] with
          retry_map := { entries := [("bloburl2", 0), ("pageurl1", 0)], cap := 50000 } }).retry_map.containsKey
      "bloburl2" = false
    ∧ (stepEvent 3 0 (.blobError "Audit.Exchange" "pageurl1")
        { initLoop [] with
          retry_map := { entries := [("bloburl2", 0), ("pageurl1", 0)], cap := 50000 } }).retry_map.containsKey
      "pageurl1" = false :=
  c2_removed_on_giveup 3 0
    { initLoop [] with
      retry_map := { entries := [("bloburl2", 0), ("pageurl1", 0)], cap := 50000 } }
    c2Blob "Audit.Exchange" "pageurl1" (by decide) (by decide)

/-- A run in which the single seeded discoverer page URL fails transiently
on every attempt (`retries = 3`): initial attempt plus three re-sends all
error, the fourth error gives up; the run then ends via the kill signal,
exactly as the real system's global timeout would end it. -/
def c3Trace : List TimedEvent :=
  [ { time := 0, ev := .blobError "Audit.Exchange" "pageurl1" },
    { time := 1, ev := .blobError "Audit.Exchange" "pageurl1" },
    { time := 2, ev := .blobError "Audit.Exchange" "pageurl1" },
    { time := 3, ev := .blobError "Audit.Exchange" "pageurl1" },
    { time := 4, ev := .kill true } ]

/-- C3 (counterexample): a tenant run whose one discoverer-page URL
exhausts its retries ends with `blobs_successful + blobs_error = 1` but
`blobs_found = 0` (a page give-up increments `blobs_error` although no
blob was ever found), and `blobs_retried = 3 > retries × blobs_found = 0`.
Both conjuncts of the claim fail. -/
theorem c3_stats_counterexample :
    (runLoop 3 (initLoop [("Audit.Exchange", "pageurl1")]) c3Trace).run.stats.blobs_successful
        + (runLoop 3 (initLoop [("Audit.Exchange", "pageurl1")]) c3Trace).run.stats.blobs_error
      = 1
    ∧ (runLoop 3 (initLoop [("Audit.Exchange", "pageurl1")]) c3Trace).run.stats.blobs_found = 0
    ∧ (runLoop 3 (initLoop [("Audit.Exchange", "pageurl1")]) c3Trace).run.stats.blobs_retried = 3
    ∧ ¬ (runLoop 3 (initLoop [("Audit.Exchange", "pageurl1")]) c3Trace).run.stats.blobs_retried
        ≤ 3 * (runLoop 3 (initLoop [("Audit.Exchange", "pageurl1")]) c3Trace).run.stats.blobs_found := by
  refine ⟨?_, ?_, ?_, ?_⟩ <;> decide

/-- C3 (amended): for a run with `retries ≥ 1` in which no throttling
occurs, in which no `usize` counter decrement underflowed, and which ends
with `awaiting_content_blobs = 0` (the completion condition), the final
stats satisfy `blobs_successful + blobs_error = blobs_found + g` where `g`
counts the discoverer-page give-ups, and
`blobs_retried ≤ (retries + 2) × i` where `i` counts the retry-map
insertions (first-time errors).  The original bounds (`g = 0` implicit,
`retries × blobs_found`) fail as shown by the counterexample: page
give-ups are counted as blob errors, and the `content_error` branch counts
the first error twice and the give-up once. -/
theorem c3_stats_amended (retries : Nat) (urls : List (String × String))
    (tr : List TimedEvent) (hr : 1 ≤ retries)
    (hnt : ∀ e ∈ tr, e.ev ≠ .status .beingThrottled)
    (hok : (runLoop retries (initLoop urls) tr).gh_ok = true)
    (hdone : (runLoop retries (initLoop urls) tr).run.awaiting_content_blobs = 0) :
    (runLoop retries (initLoop urls) tr).run.stats.blobs_successful
        + (runLoop retries (initLoop urls) tr).run.stats.blobs_error
      = (runLoop retries (initLoop urls) tr).run.stats.blobs_found
        + (runLoop retries (initLoop urls) tr).gh_pageGiveups
    ∧ (runLoop retries (initLoop urls) tr).run.stats.blobs_retried
        ≤ (retries + 2) * (runLoop retries (initLoop urls) tr).gh_inserts := by
  have hinit : C3Inv retries (initLoop urls) := by
    refine ⟨rfl, fun _ => rfl, ?_⟩
    simp [initLoop, LruCache.sumVal, LruCache.len]
  have h := c3inv_runLoop retries tr (initLoop urls) hr hnt hinit
  obtain ⟨-, heq, hle⟩ := h
  have := heq hok
  exact ⟨by omega, by omega⟩

/-- A small completed run discharging the hypotheses of `c3_stats_amended`:
one seeded page, one found blob, one successful fetch. -/
def c3wTrace : List TimedEvent :=
  [ { time := 0, ev := .status .foundNewContentBlob },
    { time := 0, ev := .status .finishedContentBlobs },
    { time := 1, ev := .status .retrievedContentBlob } ]

theorem c3_stats_amended_witness :
    (runLoop 3 (initLoop [("Audit.Exchange", "pageurl1")]) c3wTrace).run.stats.blobs_successful
        + (runLoop 3 (initLoop [("Audit.Exchange", "pageurl1")]) c3wTrace).run.stats.blobs_error
      = (runLoop 3 (initLoop [("Audit.Exchange", "pageurl1")]) c3wTrace).run.stats.blobs_found
        + (runLoop 3 (initLoop [("Audit.Exchange", "pageurl1")]) c3wTrace).gh_pageGiveups
    ∧ (runLoop 3 (initLoop [("Audit.Exchange", "pageurl1")]) c3wTrace).run.stats.blobs_retried
        ≤ (3 + 2) * (runLoop 3 (initLoop [("Audit.Exchange", "pageurl1")]) c3wTrace).gh_inserts :=
  c3_stats_amended 3 [("Audit.Exchange", "pageurl1")] c3wTrace (by decide)
    (by decide) (by decide) (by decide)

def c5Blob : ContentToRetrieve where
  content_type := "Audit.Exchange"
  content_id := "id5"
  expiration := "2030-01-01T00:00:00.000Z"
  url := "bloburl5"

/-- Run prefix reaching a throttled state with an exhausted retry entry
(`retries = 1`): one blob found, one transient fetch error (which inserts
`retries_left = 1 - 1 = 0` and re-enqueues), then a `BeingThrottled` at
instant 2 starting the backoff. -/
def c5Prefix : List TimedEvent :=
  [ { time := 0, ev := .status .foundNewContentBlob },
    { time := 0, ev := .status .finishedContentBlobs },
    { time := 1, ev := .contentError c5Blob },
    { time := 2, ev := .status .beingThrottled } ]

def c5Trace : List TimedEvent :=
  c5Prefix ++ [ { time := 3, ev := .contentError c5Blob } ]

/-- C5 (counterexample): with the backoff active (started at instant 2,
still active at instant 3 < 2 + 30) and `bloburl5` present in the retry
map, an arriving error for that URL is NOT re-enqueued: its entry holds
`retries_left = 0`, so the loop gives the URL up — removing the entry and
counting a final error — even though the claim says a URL already in the
retry map is re-enqueued regardless while the backoff is active. -/
theorem c5_backoff_counterexample :
    (runLoop 1 (initLoop [("Audit.Exchange", "pageurl5")]) c5Prefix).backoff = some 2
    ∧ (runLoop 1 (initLoop [("Audit.Exchange", "pageurl5")]) c5Prefix).retry_map.lookup
        "bloburl5" = some 0
    ∧ (runLoop 1 (initLoop [("Audit.Exchange", "pageurl5")]) c5Prefix).content_resent = [c5Blob]
    ∧ (runLoop 1 (initLoop [("Audit.Exchange", "pageurl5")]) c5Trace).content_resent = [c5Blob]
    ∧ (runLoop 1 (initLoop [("Audit.Exchange", "pageurl5")]) c5Trace).retry_map.entries = []
    ∧ (runLoop 1 (initLoop [("Audit.Exchange", "pageurl5")]) c5Trace).run.stats.blobs_error = 1 := by
  refine ⟨?_, ?_, ?_, ?_, ?_, ?_⟩ <;> decide

/-- C5 (amended): the backoff protocol of the message loop.
1.  The first `BeingThrottled` (backoff off) sets `rate_limited` and
    records the instant.
2.  A further `BeingThrottled` while the backoff is active (strictly less
    than 30 seconds elapsed) does not move the recorded instant.
3. and 4.  While the backoff is active, an error for a URL whose retry-map
    entry still has `retries_left > 0` leaves the entry undecremented and
    re-enqueues the URL (fetcher and discoverer channels alike).
5.  Exception forced by the counterexample: a URL whose entry has
    `retries_left = 0` is given up even during the backoff — entry
    removed, not re-enqueued.
6.  At the first loop iteration 30 or more seconds after the recorded
    instant, the backoff is cleared and `rate_limited` reset to false. -/
theorem c5_backoff_amended :
    (∀ (retries now : Nat) (s : LoopState), s.backoff = none →
      (stepTimed retries { time := now, ev := .status .beingThrottled } s).backoff = some now
      ∧ (stepTimed retries { time := now, ev := .status .beingThrottled } s).run.rate_limited = true)
    ∧ (∀ (retries now t0 : Nat) (s : LoopState), s.backoff = some t0 → now < t0 + 30 →
      (stepTimed retries { time := now, ev := .status .beingThrottled } s).backoff = some t0)
    ∧ (∀ (retries now t0 k : Nat) (s : LoopState) (c : ContentToRetrieve),
      s.backoff = some t0 → now < t0 + 30 →
      s.retry_map.lookup c.url = some (k + 1) →
      (stepTimed retries { time := now, ev := .contentError c } s).retry_map.lookup c.url
          = some (k + 1)
      ∧ (stepTimed retries { time := now, ev := .contentError c } s).content_resent
          = s.content_resent ++ [c])
    ∧ (∀ (retries now t0 k : Nat) (s : LoopState) (ct u : String),
      s.backoff = some t0 → now < t0 + 30 →
      s.retry_map.lookup u = some (k + 1) →
      (stepTimed retries { time := now, ev := .blobError ct u } s).retry_map.lookup u
          = some (k + 1)
      ∧ (stepTimed retries { time := now, ev := .blobError ct u } s).blobs_resent
          = s.blobs_resent ++ [(ct, u)])
    ∧ (∀ (retries now t0 : Nat) (s : LoopState) (c : ContentToRetrieve),
      s.backoff = some t0 → now < t0 + 30 →
      s.retry_map.lookup c.url = some 0 →
      (stepTimed retries { time := now, ev := .contentError c } s).retry_map.containsKey c.url
          = false
      ∧ (stepTimed retries { time := now, ev := .contentError c } s).content_resent
          = s.content_resent)
    ∧ (∀ (now t0 : Nat) (s : LoopState), s.backoff = some t0 → t0 + 30 ≤ now →
      (stepBackoffCheck now s).backoff = none
      ∧ (stepBackoffCheck now s).run.rate_limited = false) := by
  refine ⟨?_, ?_, ?_, ?_, ?_, ?_⟩
  · intro retries now s h
    simp [stepTimed, stepBackoffCheck, stepEvent, h]
  · intro retries now t0 s h hlt
    simp only [stepTimed, stepBackoffCheck, h]
    rw [if_neg (by omega)]
    simp [stepEvent, h]
  · intro retries now t0 k s c h hlt hl
    have hbc : stepBackoffCheck now s = s := by
      simp only [stepBackoffCheck, h]
      rw [if_neg (by omega)]
    simp only [stepTimed, hbc, stepEvent]
    rw [hl]
    dsimp only
    rw [if_neg (by omega), if_neg (by rw [h]; intro hf; cases hf)]
    exact ⟨lookup_touchUpdate_self _ _ _, rfl⟩
  · intro retries now t0 k s ct u h hlt hl
    have hbc : stepBackoffCheck now s = s := by
      simp only [stepBackoffCheck, h]
      rw [if_neg (by omega)]
    simp only [stepTimed, hbc, stepEvent]
    rw [hl]
    dsimp only
    rw [if_neg (by omega), if_neg (by rw [h]; intro hf; cases hf)]
    exact ⟨lookup_touchUpdate_self _ _ _, rfl⟩
  · intro retries now t0 s c h hlt hl
    have hbc : stepBackoffCheck now s = s := by
      simp only [stepBackoffCheck, h]
      rw [if_neg (by omega)]
    simp only [stepTimed, hbc, stepEvent]
    rw [hl]
    dsimp only
    rw [if_pos rfl]
    exact ⟨containsKey_pop_self _ _, rfl⟩
  · intro now t0 s h hge
    simp only [stepBackoffCheck, h]
    rw [if_pos (by omega)]
    exact ⟨rfl, rfl⟩

/-- Witness for `c5_backoff_amended` at concrete states: the throttled
state reached by `c5Prefix` (backoff started at 2) and a state with a
fresh backoff and a live retry entry. -/
theorem c5_backoff_amended_witness :
    (stepTimed 1 { time := 0, ev := .status .beingThrottled } (initLoop [])).backoff = some 0
    ∧ (stepTimed 1 { time := 3, ev := .status .beingThrottled }
        { initLoop [] with backoff := some 2 }).backoff = some 2
    ∧ (stepTimed 3 { time := 3, ev := .contentError c5Blob }
        { initLoop [] with
          backoff := some 2
          retry_map := { entries := [("bloburl5", 2)], cap := 50000 } }).retry_map.lookup
        "bloburl5" = some 2
    ∧ (stepTimed 3 { time := 3, ev := .blobError "Audit.Exchange" "pageurl5" }
        { initLoop [] with
          backoff := some 2
          retry_map := { entries := [("pageurl5", 2)], cap := 50000 } }).retry_map.lookup
        "pageurl5" = some 2
    ∧ (stepTimed 3 { time := 3, ev := .contentError c5Blob }
        { initLoop [] with
          backoff := some 2
          retry_map := { entries := [("bloburl5", 0)], cap := 50000 } }).retry_map.containsKey
        "bloburl5" = false
    ∧ (stepBackoffCheck 32 { initLoop [] with backoff := some 2 }).backoff = none := by
  obtain ⟨h1, h2, h3, h4, h5, h6⟩ := c5_backoff_amended
  refine ⟨(h1 1 0 (initLoop []) (by decide)).1,
    h2 1 3 2 { initLoop [] with backoff := some 2 } (by decide) (by decide),
    (h3 3 3 2 1 _ c5Blob (by decide) (by decide) (by decide)).1,
    (h4 3 3 2 1 _ "Audit.Exchange" "pageurl5" (by decide) (by decide) (by decide)).1,
    (h5 3 3 2 _ c5Blob (by decide) (by decide) (by decide)).1,
    (h6 32 2 { initLoop [] with backoff := some 2 } (by decide) (by decide)).1⟩

/-! ## Claim C4 : collection start time -/

/-- C4 (counterexample): with `only_future_events` enabled, a bookmark
holding `last_log_time = 1000000` and `now = 1000000`,
`hours_to_collect = 24`, the start time actually used for the windows is
the bookmark value `1000000`, whereas
`min(bookmark, now - hours_to_collect * 3600) = 913600`.
`get_start_time_from_state` returns the bookmark unchanged and
`get_needed_runs_from` uses a provided start time as-is: no `min` is ever
taken. -/
theorem c4_start_time_counterexample :
    startTimeBase 24
        (get_start_time_from_state true ["Audit.Exchange"]
          (fun _ => some 1000000) 1000000) 1000000
      = .ok 1000000
    ∧ min (1000000 : Int) (1000000 - 24 * 3600) = 913600
    ∧ (1000000 : Int) ≠ 913600 := by
  refine ⟨rfl, by decide, by decide⟩

/-- C4 (amended): when `only_future_events` is enabled and the first
subscription has a bookmark, the collection start time fed into the window
builder is exactly the bookmark's `last_log_time` (no `min` with
`now - hours_to_collect * 3600` is taken, and the 168-hour bound is not
checked on this path); when `only_future_events` is disabled the start
time is `now - hours_to_collect * 3600` (provided `hours_to_collect` is
within the 168-hour bound, otherwise the run panics). -/
theorem c4_start_time_amended :
    (∀ (s₀ : String) (rest : List String) (loadState : String → Option Int)
        (now hours b : Int), loadState s₀ = some b →
      startTimeBase hours
          (get_start_time_from_state true (s₀ :: rest) loadState now) now
        = .ok b)
    ∧ (∀ (subs : List String) (loadState : String → Option Int)
        (now hours : Int), hours ≤ 168 →
      startTimeBase hours
          (get_start_time_from_state false subs loadState now) now
        = .ok (now - hours * 3600)) := by
  constructor
  · intro s₀ rest loadState now hours b hb
    simp [get_start_time_from_state, hb, startTimeBase]
  · intro subs loadState now hours hh
    have h0 : get_start_time_from_state false subs loadState now = none := by
      simp [get_start_time_from_state]
    rw [h0]
    simp only [startTimeBase]
    rw [if_neg (by omega)]

theorem c4_start_time_amended_witness :
    startTimeBase 24
        (get_start_time_from_state true ["Audit.Exchange"]
          (fun _ => some 5555) 1000000) 1000000
      = .ok 5555
    ∧ startTimeBase 24
        (get_start_time_from_state false ["Audit.Exchange"]
          (fun _ => some 5555) 1000000) 1000000
      = .ok (1000000 - 24 * 3600) :=
  ⟨c4_start_time_amended.1 "Audit.Exchange" [] (fun _ => some 5555)
      1000000 24 5555 rfl,
   c4_start_time_amended.2 ["Audit.Exchange"] (fun _ => some 5555)
      1000000 24 (by norm_num)⟩

/-! ## Claim C6 : the 24-hour window splitter -/

/-- Checks that a window list is a gapless chain from `a` to `b`:
the first window starts at `a`, each window's end is the next window's
start, and the last window ends at `b`. -/
def windowsChain (a b : Int) : List (Int × Int) → Bool
  | [] => false
  | [(s, e)] => decide (s = a) && decide (e = b)
  | (s, e) :: w :: rest => decide (s = a) && windowsChain e b (w :: rest)

lemma splitWindows_step (endT start : Int) (h : 86400 < endT - start) :
    splitWindows endT start
      = (start, start + 86400) :: splitWindows endT (start + 86400) := by
  rw [splitWindows]
  rw [if_pos h]

lemma splitWindows_base (endT start : Int) (h : ¬ 86400 < endT - start) :
    splitWindows endT start = [(start, endT)] := by
  rw [splitWindows]
  rw [if_neg h]

lemma splitWindows_good (endT : Int) :
    ∀ (n : Nat) (start : Int), (endT - start).toNat ≤ n → start ≤ endT →
    windowsChain start endT (splitWindows endT start) = true
    ∧ ∀ w ∈ splitWindows endT start, w.2 - w.1 ≤ 86400 := by
  intro n
  induction n with
  | zero =>
    intro start h0 hle
    rw [splitWindows_base _ _ (by omega)]
    refine ⟨by simp [windowsChain], ?_⟩
    intro w hw
    simp only [List.mem_singleton] at hw
    subst hw
    simp only []
    omega
  | succ m ih =>
    intro start h0 hle
    by_cases hc : 86400 < endT - start
    · rw [splitWindows_step _ _ hc]
      have hrec := ih (start + 86400) (by omega) (by omega)
      refine ⟨?_, ?_⟩
      · cases hws : splitWindows endT (start + 86400) with
        | nil =>
          rw [hws] at hrec
          exact absurd hrec.1 (by simp [windowsChain])
        | cons w rest =>
          rw [hws] at hrec
          simp only [windowsChain, decide_True, Bool.true_and]
          exact hrec.1
      · intro w hw
        rcases List.mem_cons.mp hw with hw | hw
        · subst hw
          simp only []
          omega
        · exact hrec.2 w hw
    · rw [splitWindows_base _ _ hc]
      refine ⟨by simp [windowsChain], ?_⟩
      intro w hw
      simp only [List.mem_singleton] at hw
      subst hw
      simp only []
      omega

/-- C6: the window builder splits `[start, now]` into a gapless chain of
windows of at most 24 hours each (so they cover exactly `[start, now]`),
and concretely `hours_to_collect = 72` yields three consecutive 24-hour
windows while `hours_to_collect = 25` yields a 24-hour window followed by
a 1-hour window. -/
theorem c6_window_splitter :
    (∀ (start now : Int), start ≤ now →
      windowsChain start now (splitWindows now start) = true
      ∧ ∀ w ∈ splitWindows now start, w.2 - w.1 ≤ 86400)
    ∧ (∀ now : Int,
      get_needed_runs_from ["Audit.Exchange"] 72 none now
        = .ok [("Audit.Exchange",
            [(now - 259200, now - 172800), (now - 172800, now - 86400),
             (now - 86400, now)])])
    ∧ (∀ now : Int,
      get_needed_runs_from ["Audit.Exchange"] 25 none now
        = .ok [("Audit.Exchange",
            [(now - 90000, now - 3600), (now - 3600, now)])]) := by
  refine ⟨?_, ?_, ?_⟩
  · intro start now hle
    exact splitWindows_good now (now - start).toNat start (by omega) hle
  · intro now
    simp only [get_needed_runs_from, startTimeBase]
    rw [if_neg (by norm_num)]
    dsimp only
    simp only [List.map_cons, List.map_nil]
    have e1 : now - 72 * 3600 = now - 259200 := by ring
    rw [e1, splitWindows_step _ _ (by omega)]
    have e2 : now - 259200 + 86400 = now - 172800 := by ring
    rw [e2, splitWindows_step _ _ (by omega)]
    have e3 : now - 172800 + 86400 = now - 86400 := by ring
    rw [e3, splitWindows_base _ _ (by omega)]
  · intro now
    simp only [get_needed_runs_from, startTimeBase]
    rw [if_neg (by norm_num)]
    dsimp only
    simp only [List.map_cons, List.map_nil]
    have e1 : now - 25 * 3600 = now - 90000 := by ring
    rw [e1, splitWindows_step _ _ (by omega)]
    have e2 : now - 90000 + 86400 = now - 3600 := by ring
    rw [e2, splitWindows_base _ _ (by omega)]

theorem c6_window_splitter_witness :
    (windowsChain 0 100000 (splitWindows 100000 0) = true
      ∧ ∀ w ∈ splitWindows 100000 0, w.2 - w.1 ≤ 86400)
    ∧ get_needed_runs_from ["Audit.Exchange"] 72 none 1000000
        = .ok [("Audit.Exchange",
            [(740800, 827200), (827200, 913600), (913600, 1000000)])]
    ∧ get_needed_runs_from ["Audit.Exchange"] 25 none 1000000
        = .ok [("Audit.Exchange", [(910000, 996400), (996400, 1000000)])] := by
  obtain ⟨h1, h2, h3⟩ := c6_window_splitter
  refine ⟨h1 0 100000 (by norm_num), ?_, ?_⟩
  · rw [h2 1000000]
    norm_num
  · rw [h3 1000000]
    norm_num

/-! ## Claim C10 : totality and defaults of the duration parser -/

/-- C10: `parse_interval` is a total function (it returns a `u64` for
every input string, modelled by this being a total Lean function), and
whenever the numeric part of the trimmed input fails to parse as `u64`,
the result is the per-suffix default: 300 for an `s` suffix or an
unsuffixed string, 5 × 60 = 300 for `m`, 1 × 3600 = 3600 for `h`, and
1 × 86400 = 86400 for `d`. -/
theorem c10_parse_interval_defaults (s : String)
    (h : parseU64 (intervalNumericPart s) = none) :
    parse_interval s = intervalDefault s := by
  unfold parse_interval intervalNumericPart intervalDefault at *
  by_cases h1 : endsWithCh (trimChars s.data) 's' = true
  · simp only [h1, if_pos, true_or, if_true] at h ⊢
    rw [h, Option.getD_none]
  · simp only [h1, Bool.false_eq_true, if_false, false_or] at h ⊢
    by_cases h2 : endsWithCh (trimChars s.data) 'm' = true
    · simp only [h2, if_pos, true_or, if_true] at h ⊢
      rw [h, Option.getD_none]
    · simp only [h2, Bool.false_eq_true, if_false, false_or] at h ⊢
      by_cases h3 : endsWithCh (trimChars s.data) 'h' = true
      · simp only [h3, if_pos, true_or, if_true] at h ⊢
        rw [h, Option.getD_none]
      · simp only [h3, Bool.false_eq_true, if_false, false_or] at h ⊢
        by_cases h4 : endsWithCh (trimChars s.data) 'd' = true
        · simp only [h4, if_pos, if_true] at h ⊢
          rw [h, Option.getD_none]
        · simp only [h4, Bool.false_eq_true, if_false] at h ⊢
          rw [h, Option.getD_none]

theorem c10_parse_interval_defaults_witness :
    parse_interval "xs" = intervalDefault "xs"
    ∧ parse_interval "xm" = intervalDefault "xm"
    ∧ parse_interval "xh" = intervalDefault "xh"
    ∧ parse_interval "xd" = intervalDefault "xd"
    ∧ parse_interval "x" = intervalDefault "x"
    ∧ intervalDefault "xs" = 300 ∧ intervalDefault "xm" = 300
    ∧ intervalDefault "xh" = 3600 ∧ intervalDefault "xd" = 86400
    ∧ intervalDefault "x" = 300 :=
  ⟨c10_parse_interval_defaults "xs" (by decide),
   c10_parse_interval_defaults "xm" (by decide),
   c10_parse_interval_defaults "xh" (by decide),
   c10_parse_interval_defaults "xd" (by decide),
   c10_parse_interval_defaults "x" (by decide),
   by decide, by decide, by decide, by decide, by decide⟩

/-! ## `known_blobs_cache.rs` : the known-blobs cache

Blob ids are Rust `String`s, modelled as `List Char`; expiration instants
(`DateTime<Utc>`) are modelled as `Nat` milliseconds.  The source renders
an expiration with the format `%Y-%m-%dT%H:%M:%S%.3fZ` and
`parse_expiration` parses it back; the rendering/parsing pair is modelled
by a decimal rendering/parsing pair with the same structural properties
(it round-trips at this granularity, and produces only digit characters —
no comma, no whitespace, no newline).  The written file is modelled as its
list of lines (each `writeln!` producing one line), which is faithful
whenever no id contains a newline. -/

def digitCh (d : Nat) : Char := Char.ofNat (48 + d)

/-- Big-endian decimal rendering of `n` (`fuel ≥ n` suffices; `fuel = n`
is used).  Renders `0` as the empty list, which never reaches a file:
only entries with a strictly positive expiration are ever written. -/
def toDecRec : Nat → Nat → List Char
  | 0, _ => []
  | fuel + 1, n =>
    if n = 0 then [] else toDecRec fuel (n / 10) ++ [digitCh (n % 10)]

/-- Model of formatting an expiration instant for the save file. -/
def fmtExp (e : Nat) : List Char := toDecRec e e

/-- Model of `parse_expiration` (known_blobs_cache.rs lines 295–315)
composed with the model rendering: trim, then read a nonempty all-digit
string; anything else is `none` (an unparseable timestamp). -/
def parseExpChars (cs : List Char) : Option Nat :=
  let t := trimChars cs
  if t ≠ [] ∧ t.all isDigitCh then some (charsToNat t) else none

/-- Model of Rust `str::split_once(c)`: split at the first occurrence. -/
def splitOnce (c : Char) : List Char → Option (List Char × List Char)
  | [] => none
  | x :: xs =>
    if x = c then some ([], xs)
    else
      match splitOnce c xs with
      | some (a, b) => some (x :: a, b)
      | none => none

structure KnownBlobsCache where
  cache : LruCache (List Char) Nat
  insert_count : Nat
  max_entries : Nat
deriving Repr, DecidableEq

/-- `KnownBlobsCache::with_capacity` (lines 48–55):
`NonZeroUsize::new(max_entries).unwrap_or(1)` turns a requested capacity
of 0 into 1; any positive request is used as-is. -/
def KnownBlobsCache.with_capacity (n : Nat) : KnownBlobsCache where
  cache := { entries := [], cap := if n = 0 then 1 else n }
  insert_count := 0
  max_entries := n

/-- `KnownBlobsCache::new` : capacity `DEFAULT_MAX_ENTRIES = 1_000_000`. -/
def KnownBlobsCache.new : KnownBlobsCache :=
  KnownBlobsCache.with_capacity 1000000

/-- `cleanup_expired` (lines 92–114): remove every entry whose expiration
is not in the future; iteration order of survivors is preserved. -/
def KnownBlobsCache.cleanup_expired (c : KnownBlobsCache) (now : Nat) :
    KnownBlobsCache :=
  { c with cache := { c.cache with
      entries := c.cache.entries.filter (fun p => now < p.2) } }

/-- `save_to_file` (lines 183–198): clean up expired entries, then write
one `id,expiration` line per surviving entry in MRU-first iteration
order.  Returns the updated cache and the written file (as lines). -/
def KnownBlobsCache.save_to_file (c : KnownBlobsCache) (now : Nat) :
    KnownBlobsCache × List (List Char) :=
  let c2 := c.cleanup_expired now
  (c2, c2.cache.entries.map (fun p => p.1 ++ ',' :: fmtExp p.2))

/-- One line of `load_from_file` (lines 149–174): skip blank lines, split
at the first comma, parse the expiration (the source trims it twice: once
at the call site and once inside `parse_expiration`, folded into
`parseExpChars`), skip expired or unparseable entries, and `put` the
trimmed id. -/
def loadLine (now : Nat) (cache : KnownBlobsCache) (line : List Char) :
    KnownBlobsCache :=
  if (trimChars line).isEmpty then cache
  else
    match splitOnce ',' line with
    | some (id, expStr) =>
      match parseExpChars expStr with
      | some exp =>
        if now < exp then
          { cache with cache := cache.cache.put (trimChars id) exp }
        else cache
      | none => cache
    | none => cache

/-- `load_from_file` (lines 127–180): fold the lines into a fresh
default-capacity cache. -/
def load_from_file (lines : List (List Char)) (now : Nat) : KnownBlobsCache :=
  lines.foldl (loadLine now) KnownBlobsCache.new

/-- C9: `KnownBlobsCache::with_capacity` never fails (it is a total
function: `NonZeroUsize::new(0)` is absorbed by `unwrap_or(1)` instead of
panicking): a requested capacity of 0 yields a usable empty cache of
capacity 1, and any positive `n` yields capacity `n`. -/
theorem c9_with_capacity_total : ∀ n : Nat,
    (KnownBlobsCache.with_capacity n).cache.cap = (if n = 0 then 1 else n)
    ∧ 1 ≤ (KnownBlobsCache.with_capacity n).cache.cap
    ∧ (KnownBlobsCache.with_capacity n).cache.entries = []
    ∧ (KnownBlobsCache.with_capacity n).max_entries = n := by
  intro n
  by_cases h : n = 0
  · simp [KnownBlobsCache.with_capacity, h]
  · simp [KnownBlobsCache.with_capacity, h]
    omega

/-! ## Round-trip lemmas for the save/load file format -/

lemma charsToNat_append (l : List Char) (c : Char) :
    charsToNat (l ++ [c]) = 10 * charsToNat l + digitVal c := by
  simp [charsToNat, List.foldl_append]

lemma digitVal_digitCh (d : Nat) (h : d < 10) :
    digitVal (digitCh d) = d := by
  interval_cases d <;> decide

lemma isDigitCh_digitCh (d : Nat) (h : d < 10) :
    isDigitCh (digitCh d) = true := by
  interval_cases d <;> decide

lemma toDecRec_digits :
    ∀ fuel n, ∀ c ∈ toDecRec fuel n, isDigitCh c = true := by
  intro fuel
  induction fuel with
  | zero => intro n c hc; simp [toDecRec] at hc
  | succ m ih =>
    intro n c hc
    by_cases hn : n = 0
    · simp [toDecRec, hn] at hc
    · simp only [toDecRec, hn, if_neg, Bool.false_eq_true, if_false,
        List.mem_append, List.mem_singleton] at hc
      rcases hc with hc | hc
      · exact ih _ c hc
      · subst hc
        exact isDigitCh_digitCh _ (Nat.mod_lt _ (by norm_num))

lemma charsToNat_toDecRec :
    ∀ fuel n, n ≤ fuel → charsToNat (toDecRec fuel n) = n := by
  intro fuel
  induction fuel with
  | zero =>
    intro n h
    interval_cases n
    simp [toDecRec, charsToNat]
  | succ m ih =>
    intro n h
    by_cases hn : n = 0
    · simp [toDecRec, hn, charsToNat]
    · have hlt : n / 10 < n := Nat.div_lt_self (by omega) (by norm_num)
      simp only [toDecRec, hn, if_neg, Bool.false_eq_true, if_false]
      rw [charsToNat_append, ih (n / 10) (by omega),
        digitVal_digitCh _ (Nat.mod_lt _ (by norm_num))]
      omega

lemma toDecRec_ne_nil :
    ∀ fuel n, 1 ≤ n → n ≤ fuel → toDecRec fuel n ≠ [] := by
  intro fuel
  cases fuel with
  | zero => intro n h1 h2; omega
  | succ m =>
    intro n h1 h2
    simp only [toDecRec, if_neg (by omega : ¬ n = 0)]
    simp

lemma isDigitCh_not_ws (c : Char) (h : isDigitCh c = true) : wsCh c = false := by
  simp only [isDigitCh, decide_eq_true_eq] at h
  simp only [wsCh, decide_eq_false_iff_not]
  omega

lemma dropWhile_eq_self_of_all (p : Char → Bool) (l : List Char)
    (h : ∀ c ∈ l, p c = false) : l.dropWhile p = l := by
  cases l with
  | nil => rfl
  | cons a t =>
    rw [List.dropWhile_cons, if_neg]
    simp [h a (List.mem_cons_self _ _)]

lemma trimChars_of_all_digits (l : List Char)
    (h : ∀ c ∈ l, isDigitCh c = true) : trimChars l = l := by
  have h1 : ∀ c ∈ l, wsCh c = false := fun c hc => isDigitCh_not_ws c (h c hc)
  unfold trimChars
  rw [dropWhile_eq_self_of_all _ _ h1,
    dropWhile_eq_self_of_all _ _ (fun c hc => h1 c (List.mem_reverse.mp hc)),
    List.reverse_reverse]

lemma parse_fmtExp (e : Nat) (h1 : 1 ≤ e) : parseExpChars (fmtExp e) = some e := by
  have hd : ∀ c ∈ fmtExp e, isDigitCh c = true := toDecRec_digits e e
  have hne : fmtExp e ≠ [] := toDecRec_ne_nil e e h1 le_rfl
  have htr : trimChars (fmtExp e) = fmtExp e := trimChars_of_all_digits _ hd
  simp only [parseExpChars, htr]
  rw [if_pos ⟨hne, List.all_eq_true.mpr hd⟩]
  show some (charsToNat (toDecRec e e)) = some e
  rw [charsToNat_toDecRec e e le_rfl]

lemma splitOnce_append (id rest : List Char) (h : ',' ∉ id) :
    splitOnce ',' (id ++ ',' :: rest) = some (id, rest) := by
  induction id with
  | nil => simp [splitOnce]
  | cons a t ih =>
    have ha : ¬ a = ',' := fun hc => h (hc ▸ List.mem_cons_self _ _)
    simp only [List.cons_append, splitOnce, if_neg ha, List.append_eq]
    rw [ih (fun hc => h (List.mem_cons_of_mem _ hc))]

lemma mem_dropWhile_of_not (p : Char → Bool) (l : List Char) (c : Char)
    (hc : c ∈ l) (hp : p c = false) : c ∈ l.dropWhile p := by
  induction l with
  | nil => simp at hc
  | cons a t ih =>
    rw [List.dropWhile_cons]
    by_cases ha : p a = true
    · rw [if_pos ha]
      rcases List.mem_cons.mp hc with hc | hc
      · subst hc; rw [ha] at hp; cases hp
      · exact ih hc
    · rw [if_neg ha]
      exact hc

lemma trimChars_not_empty (l : List Char) (c : Char) (hc : c ∈ l)
    (hw : wsCh c = false) : (trimChars l).isEmpty = false := by
  have h1 : c ∈ l.dropWhile wsCh := mem_dropWhile_of_not _ _ _ hc hw
  have h2 : c ∈ (l.dropWhile wsCh).reverse := List.mem_reverse.mpr h1
  have h3 : c ∈ (l.dropWhile wsCh).reverse.dropWhile wsCh :=
    mem_dropWhile_of_not _ _ _ h2 hw
  have h4 : c ∈ trimChars l := List.mem_reverse.mpr h3
  rw [List.isEmpty_eq_false]
  exact List.ne_nil_of_mem h4

lemma eraseKey_eq_self [DecidableEq K] {V : Type} (l : List (K × V)) (k : K)
    (h : l.any (fun p => decide (p.1 = k)) = false) : eraseKey l k = l := by
  unfold eraseKey
  rw [List.filter_eq_self]
  intro a ha
  rw [List.any_eq_false] at h
  simpa using h a ha

/-- Loading one well-formed saved line: blank check fails (the line holds
a comma), the split recovers id and expiration, the expiration parses
back, and a fresh id under capacity is simply consed onto the entries. -/
lemma loadLine_saved (now2 : Nat) (acc : KnownBlobsCache) (p : List Char × Nat)
    (hcomma : ',' ∉ p.1) (htrim : trimChars p.1 = p.1) (hpos : 1 ≤ p.2)
    (hfresh : acc.cache.containsKey p.1 = false)
    (hcap : acc.cache.len < acc.cache.cap) :
    loadLine now2 acc (p.1 ++ ',' :: fmtExp p.2)
      = if now2 < p.2 then
          { acc with cache := { acc.cache with
              entries := (p.1, p.2) :: acc.cache.entries } }
        else acc := by
  have hnz : (trimChars (p.1 ++ ',' :: fmtExp p.2)).isEmpty = false :=
    trimChars_not_empty _ ',' (by simp) (by decide)
  unfold loadLine
  rw [if_neg (by rw [hnz]; exact Bool.false_ne_true)]
  rw [splitOnce_append _ _ hcomma]
  dsimp only
  rw [parse_fmtExp _ hpos]
  dsimp only
  rw [htrim]
  by_cases h : now2 < p.2
  · rw [if_pos h, if_pos h]
    have he : eraseKey acc.cache.entries p.1 = acc.cache.entries :=
      eraseKey_eq_self _ _ hfresh
    unfold LruCache.put
    dsimp only
    rw [he]
    rw [if_neg (by
      simp only [List.length_cons]
      unfold LruCache.len at hcap
      omega)]
  · rw [if_neg h, if_neg h]

lemma load_fold (now2 : Nat) :
    ∀ (L : List (List Char × Nat)) (acc : KnownBlobsCache),
    (∀ p ∈ L, ',' ∉ p.1 ∧ trimChars p.1 = p.1 ∧ 1 ≤ p.2) →
    (∀ p ∈ L, acc.cache.containsKey p.1 = false) →
    (L.map Prod.fst).Nodup →
    acc.cache.len + L.length ≤ acc.cache.cap →
    ((L.map (fun p => p.1 ++ ',' :: fmtExp p.2)).foldl (loadLine now2) acc).cache.entries
      = (L.filter (fun p => decide (now2 < p.2))).reverse ++ acc.cache.entries := by
  intro L
  induction L with
  | nil =>
    intro acc _ _ _ _
    simp
  | cons p L ih =>
    intro acc hwf hfresh hnd hcap
    obtain ⟨hc, ht, hp⟩ := hwf p (List.mem_cons_self _ _)
    have hnd2 : p.1 ∉ L.map Prod.fst ∧ (L.map Prod.fst).Nodup := by
      rw [List.map_cons, List.nodup_cons] at hnd
      exact hnd
    have hndL : (L.map Prod.fst).Nodup := hnd2.2
    have hpn : p.1 ∉ L.map Prod.fst := hnd2.1
    simp only [List.map_cons, List.foldl_cons]
    rw [loadLine_saved now2 acc p hc ht hp (hfresh p (List.mem_cons_self _ _))
      (by simp only [List.length_cons] at hcap; omega)]
    by_cases h : now2 < p.2
    · rw [if_pos h]
      rw [ih _ ?hwf ?hfresh ?hnd ?hcap]
      case hwf => exact fun q hq => hwf q (List.mem_cons_of_mem _ hq)
      case hfresh =>
        intro q hq
        have hq1 : ¬ q.1 = p.1 := by
          intro hqp
          exact hpn (hqp ▸ List.mem_map_of_mem Prod.fst hq)
        have := hfresh q (List.mem_cons_of_mem _ hq)
        simp only [LruCache.containsKey] at this ⊢
        simp only [List.any_cons, this, Bool.or_false]
        simpa using fun hqp => hq1 hqp.symm
      case hnd => exact hndL
      case hcap =>
        simp only [LruCache.len, List.length_cons] at hcap ⊢
        omega
      simp only [List.filter_cons, h, decide_True, if_true, List.reverse_cons,
        List.append_assoc, List.cons_append, List.nil_append]
    · rw [if_neg h]
      rw [ih _ (fun q hq => hwf q (List.mem_cons_of_mem _ hq))
        (fun q hq => hfresh q (List.mem_cons_of_mem _ hq)) hndL
        (by simp only [List.length_cons] at hcap; omega)]
      simp only [List.filter_cons, h, decide_False, Bool.false_eq_true, if_false]

/-- C7 (amended): for a cache with pairwise-distinct ids that contain no
comma and no newline and carry no surrounding whitespace, holding at most
the 1,000,000 entries a freshly loaded cache can take, saving at `now1`
and loading at a later `now2` yields exactly the entries whose expiration
is still in the future at load time (in reversed recency order, as each
loaded line is promoted to most-recently-used). -/
theorem c7_save_load_amended (c : KnownBlobsCache) (now1 now2 : Nat)
    (hnodup : (c.cache.entries.map Prod.fst).Nodup)
    (hids : ∀ p ∈ c.cache.entries,
      ',' ∉ p.1 ∧ ('\n' : Char) ∉ p.1 ∧ trimChars p.1 = p.1)
    (hlen : c.cache.entries.length ≤ 1000000)
    (h12 : now1 ≤ now2) :
    (load_from_file (c.save_to_file now1).2 now2).cache.entries
      = (c.cache.entries.filter (fun p => decide (now2 < p.2))).reverse
    ∧ (∀ id e, (id, e) ∈ (load_from_file (c.save_to_file now1).2 now2).cache.entries
        ↔ ((id, e) ∈ c.cache.entries ∧ now2 < e)) := by
  have hL : ∀ p ∈ c.cache.entries.filter (fun p => decide (now1 < p.2)),
      p ∈ c.cache.entries := fun p hp => List.mem_of_mem_filter hp
  have heq : (load_from_file (c.save_to_file now1).2 now2).cache.entries
      = ((c.cache.entries.filter (fun p => decide (now1 < p.2))).filter
          (fun p => decide (now2 < p.2))).reverse := by
    unfold load_from_file KnownBlobsCache.save_to_file KnownBlobsCache.cleanup_expired
    dsimp only
    rw [load_fold now2 _ KnownBlobsCache.new ?hwf ?hfresh ?hnd ?hcap]
    case hwf =>
      intro p hp
      have hmem := hL p hp
      have hpred := List.of_mem_filter hp
      simp only [decide_eq_true_eq] at hpred
      exact ⟨(hids p hmem).1, (hids p hmem).2.2, by omega⟩
    case hfresh =>
      intro p hp
      rfl
    case hnd =>
      exact (hnodup.sublist (List.Sublist.map Prod.fst
        (List.filter_sublist c.cache.entries)))
    case hcap =>
      have h1 : (c.cache.entries.filter (fun p => decide (now1 < p.2))).length
          ≤ c.cache.entries.length := List.length_filter_le _ _
      simp only [KnownBlobsCache.new, KnownBlobsCache.with_capacity, LruCache.len,
        List.length_nil]
      norm_num
      omega
    simp [KnownBlobsCache.new, KnownBlobsCache.with_capacity]
  have hff : (c.cache.entries.filter (fun p => decide (now1 < p.2))).filter
        (fun p => decide (now2 < p.2))
      = c.cache.entries.filter (fun p => decide (now2 < p.2)) := by
    rw [List.filter_filter]
    apply List.filter_congr
    intro a ha
    by_cases h : now2 < a.2
    · have h1 : now1 < a.2 := by omega
      simp [h, h1]
    · simp [h]
  refine ⟨by rw [heq, hff], ?_⟩
  intro id e
  rw [heq, hff]
  simp only [List.mem_reverse, List.mem_filter, decide_eq_true_eq]

/-- A cache whose single id contains a comma: the saved line `a,b,100`
splits at the FIRST comma on load, so the expiration fails to parse and
the entry is silently dropped. -/
def c7BadCache : KnownBlobsCache where
  cache := { entries := [(['a', ',', 'b'], 100)], cap := 1000000 }
  insert_count := 0
  max_entries := 1000000

/-- C7 (counterexample): saving `c7BadCache` at time 0 and loading at
time 0 yields an empty cache, although the original entry's expiration
(100) is still in the future at load time — refuting the claim that the
reloaded cache contains exactly the not-yet-expired entries of the
original, for ids containing a comma. -/
theorem c7_comma_id_counterexample :
    (load_from_file (c7BadCache.save_to_file 0).2 0).cache.entries = []
    ∧ (['a', ',', 'b'], 100) ∈ c7BadCache.cache.entries
    ∧ (0 : Nat) < 100 := by
  refine ⟨by decide, by decide, by decide⟩

theorem c7_save_load_amended_witness :
    (load_from_file
        (KnownBlobsCache.save_to_file
          { cache := { entries := [(['a'], 100), (['b'], 3)], cap := 1000000 },
            insert_count := 0, max_entries := 1000000 } 2).2 5).cache.entries
      = ([(['a'], 100), (['b'], 3)].filter
          (fun p => decide (5 < p.2))).reverse :=
  (c7_save_load_amended
    { cache := { entries := [(['a'], 100), (['b'], 3)], cap := 1000000 },
      insert_count := 0, max_entries := 1000000 } 2 5
    (by decide) (by decide) (by decide) (by decide)).1

/-! ## `collector.rs` : `handle_log` record filtering (lines 261–284)

`ArbitraryJson` (a `serde_json` object) is modelled as an association list
of string keys and JSON values; `Json.beq` models `serde_json`'s `!=`
comparison (numbers are modelled as integers).  The `Caches` OutputCache
type lives in `data_structures.rs`, which is absent from src/, and is
modelled from the spec below. -/

inductive Json where
  | null
  | bool (b : Bool)
  | num (n : Int)
  | str (s : String)
  | arr (xs : List Json)
  | obj (fs : List (String × Json))
deriving Repr

mutual

def Json.beq : Json → Json → Bool
  | .null, .null => true
  | .bool a, .bool b => a == b
  | .num a, .num b => a == b
  | .str a, .str b => a == b
  | .arr xs, .arr ys => Json.beqList xs ys
  | .obj xs, .obj ys => Json.beqObj xs ys
  | _, _ => false

def Json.beqList : List Json → List Json → Bool
  | [], [] => true
  | x :: xs, y :: ys => Json.beq x y && Json.beqList xs ys
  | _, _ => false

def Json.beqObj : List (String × Json) → List (String × Json) → Bool
  | [], [] => true
  | (k1, v1) :: xs, (k2, v2) :: ys =>
    k1 == k2 && Json.beq v1 v2 && Json.beqObj xs ys
  | _, _ => false

end

/-- A log record: a key → JSON value mapping (`serde_json::Map`). -/
abbrev LogRecord := List (String × Json)

def lookupAssoc {α : Type} (l : List (String × α)) (k : String) : Option α :=
  (l.find? (fun p => p.1 = k)).map Prod.snd

/-- Model of `log.insert(key, value)` on a `serde_json::Map`: replace the
value if the key is present, otherwise add the binding. -/
def recordInsert (r : LogRecord) (k : String) (v : Json) : LogRecord :=
  if (r.find? (fun p => p.1 = k)).isSome then
    r.map (fun p => if p.1 = k then (k, v) else p)
  else r ++ [(k, v)]

/-- Modelled from the spec: the `Caches` OutputCache of
`data_structures.rs` is absent from src/.  Spec §4.2: a per-content-type
bucket of records with one record-count capacity; `insert` appends to the
content type's bucket in O(1); `full` is true once the total count over
all buckets reaches the capacity. -/
structure Caches where
  buckets : List (String × List LogRecord)
  size : Nat

/-- Modelled from the spec: append the record to its content type's
bucket. -/
def Caches.insert (c : Caches) (log : LogRecord) (ct : String) : Caches :=
  { c with buckets :=
      if (c.buckets.find? (fun p => p.1 = ct)).isSome then
        c.buckets.map (fun p => if p.1 = ct then (p.1, p.2 ++ [log]) else p)
      else c.buckets ++ [(ct, [log])] }

def Caches.count (c : Caches) : Nat :=
  (c.buckets.map (fun p => p.2.length)).sum

/-- Modelled from the spec: `full()` is true once the total record count
reaches the configured capacity. -/
def Caches.full (c : Caches) : Bool := c.size ≤ c.count

/-- One filter key violates the record iff the key is present in the
record with a value different from the filter's (collector.rs 269–275). -/
def filterViolates (log : LogRecord) (kv : String × Json) : Bool :=
  match lookupAssoc log kv.1 with
  | some val => !(Json.beq val kv.2)
  | none => false

/-- The pure core of `handle_log`: `none` means the record is dropped by
the content type's filter (the source's early `return`); otherwise the
record is returned with the synthetic `OriginFeed` field set to the
content type. -/
def processRecord (filters : List (String × LogRecord)) (ct : String)
    (log : LogRecord) : Option LogRecord :=
  match lookupAssoc filters ct with
  | some fs =>
    if fs.any (filterViolates log) then none
    else some (recordInsert log "OriginFeed" (.str ct))
  | none => some (recordInsert log "OriginFeed" (.str ct))

/-- `handle_log` (collector.rs 261–284) up to the `full()`-triggered flush
(which concerns the sinks, not the cached contents): a kept record is
appended to the output cache and `saved` is incremented. -/
def handle_log (filters : List (String × LogRecord)) (ct : String)
    (log : LogRecord) (cache : Caches) (saved : Nat) : Caches × Nat :=
  match processRecord filters ct log with
  | none => (cache, saved)
  | some r => (cache.insert r ct, saved + 1)

lemma find_map_replace (k : String) (v : Json) :
    ∀ (r : LogRecord), (r.find? (fun p => p.1 = k)).isSome = true →
    ((r.map (fun p => if p.1 = k then (k, v) else p)).find?
      (fun p => p.1 = k)).map Prod.snd = some v := by
  intro r
  induction r with
  | nil => intro h; simp at h
  | cons a t ih =>
    intro h
    by_cases ha : a.1 = k
    · simp only [List.map_cons, if_pos ha]
      rw [List.find?_cons_of_pos _ (by simp)]
      rfl
    · simp only [List.map_cons, if_neg ha]
      rw [List.find?_cons_of_neg _ (by simpa using ha)]
      rw [List.find?_cons_of_neg _ (by simpa using ha)] at h
      exact ih h

lemma find_append_fresh (k : String) (v : Json) :
    ∀ (r : LogRecord), (r.find? (fun p => p.1 = k)).isSome = false →
    ((r ++ [(k, v)]).find? (fun p => p.1 = k)).map Prod.snd = some v := by
  intro r
  induction r with
  | nil =>
    intro h
    simp only [List.nil_append]
    rw [List.find?_cons_of_pos _ (by simp)]
    rfl
  | cons a t ih =>
    intro h
    by_cases ha : a.1 = k
    · rw [List.find?_cons_of_pos _ (by simpa using ha)] at h
      simp at h
    · rw [List.find?_cons_of_neg _ (by simpa using ha)] at h
      simp only [List.cons_append]
      rw [List.find?_cons_of_neg _ (by simpa using ha)]
      exact ih h

lemma lookupAssoc_recordInsert (r : LogRecord) (k : String) (v : Json) :
    lookupAssoc (recordInsert r k v) k = some v := by
  unfold recordInsert lookupAssoc
  by_cases h : (r.find? (fun p => p.1 = k)).isSome = true
  · rw [if_pos h]
    exact find_map_replace k v r h
  · rw [if_neg h]
    exact find_append_fresh k v r (Bool.eq_false_iff.mpr h)

def s6Filters : List (String × LogRecord) :=
  [("Audit.Exchange", [("Operation", Json.str "Send")])]

def s6Rec1 : LogRecord := [("Operation", Json.str "Send"), ("a", Json.num 1)]

def s6Rec2 : LogRecord := [("Operation", Json.str "Read"), ("a", Json.num 2)]

/-- C8: a decoded record is dropped iff its blob's content type has a
configured filter and some filter key present in the record maps to a
different value; every kept record carries `OriginFeed = content_type`
and is appended to the output cache with `saved` incremented; and for the
S6 filter `Audit.Exchange ↦ (Operation = "Send")`, of the records
`(Operation: "Send", a: 1)` and `(Operation: "Read", a: 2)` exactly the
first is forwarded. -/
theorem c8_filter_drop :
    (∀ (filters : List (String × LogRecord)) (ct : String) (log : LogRecord),
      processRecord filters ct log = none
        ↔ ∃ fs, lookupAssoc filters ct = some fs
            ∧ ∃ kv ∈ fs, ∃ val, lookupAssoc log kv.1 = some val
                ∧ Json.beq val kv.2 = false)
    ∧ (∀ (filters : List (String × LogRecord)) (ct : String) (log r : LogRecord)
        (cache : Caches) (saved : Nat),
        processRecord filters ct log = some r →
        lookupAssoc r "OriginFeed" = some (.str ct)
        ∧ handle_log filters ct log cache saved = (cache.insert r ct, saved + 1))
    ∧ processRecord s6Filters "Audit.Exchange" s6Rec1
        = some (s6Rec1 ++ [("OriginFeed", Json.str "Audit.Exchange")])
    ∧ processRecord s6Filters "Audit.Exchange" s6Rec2 = none := by
  refine ⟨?_, ?_, rfl, rfl⟩
  · intro filters ct log
    unfold processRecord
    cases hl : lookupAssoc filters ct with
    | none =>
      simp only [Option.some_ne_none, false_iff]
      rintro ⟨fs, hfs, -⟩
      cases hfs
    | some fs =>
      by_cases hany : fs.any (filterViolates log) = true
      · simp only [hany, if_true, true_iff]
        obtain ⟨kv, hkv, hviol⟩ := List.any_eq_true.mp hany
        refine ⟨fs, rfl, kv, hkv, ?_⟩
        unfold filterViolates at hviol
        cases hv : lookupAssoc log kv.1 with
        | none => rw [hv] at hviol; cases hviol
        | some val =>
          rw [hv] at hviol
          exact ⟨val, rfl, by simpa using hviol⟩
      · simp only [hany, Bool.false_eq_true, if_false, Option.some_ne_none,
          false_iff]
        rintro ⟨fs2, hfs2, kv, hkv, val, hval, hbeq⟩
        have hfs : fs2 = fs := (Option.some.inj hfs2).symm
        subst hfs
        rw [Bool.not_eq_true, List.any_eq_false] at hany
        have := hany kv hkv
        unfold filterViolates at this
        rw [hval] at this
        simp only [Bool.not_eq_true, Bool.not_eq_false] at this
        rw [hbeq] at this
        simp at this
  · intro filters ct log r cache saved h
    refine ⟨?_, ?_⟩
    · unfold processRecord at h
      cases hl : lookupAssoc filters ct with
      | none =>
        rw [hl] at h
        dsimp only at h
        simp only [Option.some.injEq] at h
        subst h
        exact lookupAssoc_recordInsert log "OriginFeed" (.str ct)
      | some fs =>
        rw [hl] at h
        dsimp only at h
        by_cases hany : fs.any (filterViolates log) = true
        · rw [if_pos hany] at h
          cases h
        · rw [if_neg hany] at h
          simp only [Option.some.injEq] at h
          subst h
          exact lookupAssoc_recordInsert log "OriginFeed" (.str ct)
    · unfold handle_log
      rw [h]

theorem c8_filter_drop_witness :
    (processRecord s6Filters "Audit.Exchange" s6Rec2 = none
      ↔ ∃ fs, lookupAssoc s6Filters "Audit.Exchange" = some fs
          ∧ ∃ kv ∈ fs, ∃ val, lookupAssoc s6Rec2 kv.1 = some val
              ∧ Json.beq val kv.2 = false)
    ∧ lookupAssoc (recordInsert s6Rec1 "OriginFeed" (.str "Audit.Exchange"))
        "OriginFeed" = some (.str "Audit.Exchange")
    ∧ handle_log s6Filters "Audit.Exchange" s6Rec1 ⟨[], 10⟩ 0
        = (Caches.insert ⟨[], 10⟩
            (recordInsert s6Rec1 "OriginFeed" (.str "Audit.Exchange"))
            "Audit.Exchange", 1) := by
  have h2 := c8_filter_drop.2.1 s6Filters "Audit.Exchange" s6Rec1
    (recordInsert s6Rec1 "OriginFeed" (.str "Audit.Exchange")) ⟨[], 10⟩ 0 rfl
  exact ⟨c8_filter_drop.1 s6Filters "Audit.Exchange" s6Rec2, h2.1, h2.2⟩

end O365

